import Mathlib

/-!
Verification of the directive resolution and composition engine of the
azathoth repository.

The core under study is duplicated across the repository:

* the canonical code generator in src/mcp_rs/src/tools/directives.rs
  (the define_directives rules: from_string, get_guidance, and the three
  content rules content!/file!/files!), instantiated with the registry
  of src/mcp_rs/examples/scout.rs, whose adapt tool composes a base
  philosophy document with per-language sections;
* the earlier draft copy in src/mcp_rs/examples/directives.rs, with its
  own content rules and its get_multiple_guidances tool.

External file contents (include_str! in the source, fixed at compile
time) are modelled by an arbitrary function fs from paths to contents.
Rust's str::to_lowercase is modelled character by character on the
string's data (all registry strings are ASCII).
-/

namespace Azathoth

/-- Model of Rust's str::to_lowercase, applied character by character. -/
def toLowercase (s : String) : String := String.mk (s.data.map Char.toLower)

/-- The fixed section separator used throughout the composition code. -/
def sep : String := "\n\n---\n\n"

/-- A category's content source: an inline literal (content!), a single
external file (file!), or several external files (files!). -/
inductive ContentSource where
  | inlineText (text : String)
  | singleFile (path : String)
  | multiFile (paths : List String)
deriving DecidableEq, Repr

/-- One row of a define_directives table: canonical name, alias literals,
and the content source. -/
structure Category where
  name : String
  aliases : List String
  content : ContentSource
deriving DecidableEq, Repr

/-- One iteration of the files! rule of the canonical define_directives:
push the separator only when the accumulator is non-empty, then push the
content. -/
def filesStep (combined content : String) : String :=
  (if combined == "" then combined else combined ++ sep) ++ content

/-- The files! rule of the canonical define_directives: fold filesStep
over the files' contents, starting from the empty string. -/
def filesCombine (contents : List String) : String :=
  contents.foldl filesStep ""

/-- Materialization of a content source; fs gives each file path's
contents. -/
def materialize (fs : String → String) : ContentSource → String
  | .inlineText text => text
  | .singleFile path => fs path
  | .multiFile paths => filesCombine (paths.map fs)

/-- The scan done by the canonical from_string once the input has been
lowercased: first category (in declaration order) whose lowercased
canonical name or literal alias equals the lowered input. -/
def fromLower (registry : List Category) (s_lower : String) : Option Category :=
  registry.find? fun cat =>
    s_lower == toLowercase cat.name || cat.aliases.any fun a => s_lower == a

/-- The canonical from_string of src/mcp_rs/src/tools/directives.rs:
lowercase the input, then scan the table. -/
def from_string (registry : List Category) (s : String) : Option Category :=
  fromLower registry (toLowercase s)

/-- The canonical get_guidance: materialize the category's content. -/
def get_guidance (fs : String → String) (cat : Category) : String :=
  materialize fs cat.content

/-- The fallback notice built by the adapt tool of examples/scout.rs for
an unresolved identifier; the identifier appears verbatim. -/
def fallbackNotice (language : String) : String :=
  "Note: No specific guidance available for language: '" ++ language ++ "'."

/-- The per-identifier section text appended by adapt after each
separator: resolved guidance, or the fallback notice. -/
def sectionOf (registry : List Category) (fs : String → String) (language : String) : String :=
  match from_string registry language with
  | some cat => get_guidance fs cat
  | none => fallbackNotice language

/-- The adapt tool of examples/scout.rs: start from the base philosophy
document, then for each requested language append the separator followed
by that language's section. -/
def adapt (registry : List Category) (fs : String → String)
    (base : String) (languages : List String) : String :=
  languages.foldl (fun result language => result ++ sep ++ sectionOf registry fs language) base

/-- The adapt tool's full return value: the source's only return
statement wraps the composed text in Ok. -/
def adaptTool (registry : List Category) (fs : String → String)
    (base : String) (languages : List String) : Except String String :=
  Except.ok (adapt registry fs base languages)

/-- The registry declared in examples/scout.rs via define_directives. -/
def scoutRegistry : List Category :=
  [ ⟨"Readme", ["readme"], .singleFile "d-readme.md"⟩,
    ⟨"Rust", ["rs"], .multiFile ["d-rust.md", "d-rust.rs"]⟩,
    ⟨"Python", ["py"], .multiFile ["d-python.md", "d-python.py"]⟩,
    ⟨"Web", ["js", "ts", "svelte"], .inlineText "Web technologies guidance placeholder"⟩,
    ⟨"Go", ["go"], .inlineText "Go guidance placeholder"⟩,
    ⟨"C", ["c", "cpp", "c++"], .inlineText "C-based languages guidance placeholder"⟩ ]

/-- The one-category registry of the spec's concrete scenario: Python
with alias "py" and inline content "PY-GUIDE". -/
def pyRegistry : List Category :=
  [ ⟨"Python", ["py"], .inlineText "PY-GUIDE"⟩ ]

/-- Spec-side section list for a request list: for each identifier, the
separator followed by its section, concatenated in order. -/
def sectionsText (registry : List Category) (fs : String → String) : List String → String
  | [] => ""
  | l :: rest => sep ++ sectionOf registry fs l ++ sectionsText registry fs rest

theorem adapt_eq_sectionsText (registry : List Category) (fs : String → String)
    (base : String) (languages : List String) :
    adapt registry fs base languages = base ++ sectionsText registry fs languages := by
  induction languages generalizing base with
  | nil => simp [adapt, sectionsText]
  | cons l rest ih =>
      show adapt registry fs (base ++ sep ++ sectionOf registry fs l) rest = _
      rw [ih, sectionsText]
      simp [String.append_assoc]

theorem sectionsText_append (registry : List Category) (fs : String → String)
    (l₁ l₂ : List String) :
    sectionsText registry fs (l₁ ++ l₂) =
      sectionsText registry fs l₁ ++ sectionsText registry fs l₂ := by
  induction l₁ with
  | nil => simp [sectionsText]
  | cons x rest ih => simp [sectionsText, ih, String.append_assoc]

/-- C1: end-to-end scenario. With the registry holding Python (alias
"py", inline content "PY-GUIDE") and base document "BASE", composing for
["py", "unknownlang"] yields the base first with no leading separator,
then each section in order preceded by the separator, with the fallback
notice for the unknown identifier. -/
theorem c1_concrete_scenario (fs : String → String) :
    adapt pyRegistry fs "BASE" ["py", "unknownlang"] =
      "BASE\n\n---\n\nPY-GUIDE\n\n---\n\nNote: No specific guidance available for language: 'unknownlang'." :=
  rfl

/-- C6: empty-request identity. Composing any base document with an empty
request list returns the base exactly, with no trailing separator. -/
theorem c6_empty_request_identity (registry : List Category)
    (fs : String → String) (base : String) :
    adapt registry fs base [] = base :=
  rfl

/-- C4: the composer is total and never fails. For every request list it
returns Ok with the base document followed by one section per requested
identifier, so an unresolved identifier (whose section is the fallback
notice) never prevents the remaining sections from being appended. -/
theorem c4_composer_total (registry : List Category) (fs : String → String)
    (base : String) (languages : List String) :
    adaptTool registry fs base languages =
      Except.ok (base ++ sectionsText registry fs languages) := by
  rw [adaptTool, adapt_eq_sectionsText]

/-- C7: no deduplication. A request list containing the same identifier
twice yields that identifier's section twice, at exactly the requested
positions, with all surrounding sections in request order. -/
theorem c7_duplicates_preserved (registry : List Category) (fs : String → String)
    (base x : String) (l₁ l₂ l₃ : List String) :
    adapt registry fs base (l₁ ++ x :: l₂ ++ x :: l₃) =
      base ++ sectionsText registry fs l₁ ++ (sep ++ sectionOf registry fs x) ++
        sectionsText registry fs l₂ ++ (sep ++ sectionOf registry fs x) ++
        sectionsText registry fs l₃ := by
  rw [adapt_eq_sectionsText]
  rw [show l₁ ++ x :: l₂ ++ x :: l₃ = l₁ ++ ([x] ++ l₂ ++ ([x] ++ l₃)) by simp]
  simp only [sectionsText_append]
  simp [sectionsText, String.append_assoc]

/-- C3: an identifier matching no canonical name (case-insensitively) and
no alias resolves to none, and composing for the single-element list
yields base, separator, then the fallback notice carrying the identifier
verbatim as supplied. -/
theorem c3_unresolved_notice (x : String)
    (h : ∀ cat ∈ scoutRegistry, toLowercase x ≠ toLowercase cat.name ∧
          ∀ a ∈ cat.aliases, toLowercase x ≠ a) :
    from_string scoutRegistry x = none ∧
      ∀ (fs : String → String) (base : String),
        adapt scoutRegistry fs base [x] = base ++ sep ++ fallbackNotice x := by
  have hn : from_string scoutRegistry x = none := by
    rw [from_string, fromLower]
    apply List.find?_eq_none.mpr
    intro cat hcat
    have h1 := (h cat hcat).1
    have h2 := (h cat hcat).2
    simp only [Bool.or_eq_true, beq_iff_eq, List.any_eq_true, not_or, not_exists]
    push_neg
    exact ⟨h1, h2⟩
  refine ⟨hn, ?_⟩
  intro fs base
  rw [adapt_eq_sectionsText]
  simp [sectionsText, sectionOf, hn, String.append_assoc]

theorem c3_unresolved_notice_witness :
    from_string scoutRegistry "unknownlang" = none ∧
      adapt scoutRegistry (fun _ => "F") "BASE" ["unknownlang"] =
        "BASE" ++ sep ++ fallbackNotice "unknownlang" := by
  have h := c3_unresolved_notice "unknownlang" (by decide)
  exact ⟨h.1, h.2 (fun _ => "F") "BASE"⟩

/-- C8: every registered alias of the scout registry resolves to its
category, and so does every casing variation of the alias, because the
input is lowercased before it is compared literally with the stored
alias. -/
theorem c8_alias_casing (cat : Category) (a v : String)
    (hcat : cat ∈ scoutRegistry) (ha : a ∈ cat.aliases)
    (hv : toLowercase v = a) :
    from_string scoutRegistry v = some cat := by
  have hall : ∀ c ∈ scoutRegistry, ∀ b ∈ c.aliases,
      fromLower scoutRegistry b = some c := by decide
  rw [from_string, hv]
  exact hall cat hcat a ha

theorem c8_alias_casing_witness :
    from_string scoutRegistry "PY" =
      some ⟨"Python", ["py"], .multiFile ["d-python.md", "d-python.py"]⟩ :=
  c8_alias_casing ⟨"Python", ["py"], .multiFile ["d-python.md", "d-python.py"]⟩ "py" "PY"
    (by decide) (by decide) (by decide)

/-- The language enum of the draft define_directives in
src/mcp_rs/examples/directives.rs (same variants and aliases as the
handwritten copy in mcp-rs/examples/directives.rs). -/
inductive DraftGuide where
  | Go
  | Python
  | Rust
  | C
  | Web
  | Kotlin
  | Container
  | SystemTool
deriving DecidableEq

/-- The draft from_string: the lowercased input is matched against the
stringified variant name exactly as written in the table (NOT lowercased,
so the patterns are "Go", "Python", ..., "SystemTool") or against one of
the alias literals, in declaration order. -/
def draft_from_string (s : String) : Option DraftGuide :=
  let sl := toLowercase s
  if sl == "Go" || sl == "golang" then some .Go
  else if sl == "Python" || sl == "py" then some .Python
  else if sl == "Rust" || sl == "rs" then some .Rust
  else if sl == "C" || sl == "cpp" || sl == "c++" || sl == "objc" ||
      sl == "objective-c" then some .C
  else if sl == "Web" || sl == "javascript" || sl == "js" || sl == "typescript" ||
      sl == "ts" || sl == "html" || sl == "css" || sl == "svelte" ||
      sl == "react" || sl == "vue" then some .Web
  else if sl == "Kotlin" || sl == "java" || sl == "kt" then some .Kotlin
  else if sl == "Container" || sl == "docker" || sl == "podman" ||
      sl == "dockerfile" then some .Container
  else if sl == "SystemTool" || sl == "system" || sl == "tool" || sl == "rg" ||
      sl == "ripgrep" || sl == "eza" || sl == "fd" || sl == "fzf" ||
      sl == "bat" || sl == "exa" then some .SystemTool
  else none

/-- The draft macro's multi-extension content rule: for each extension in
order, the contents of the file d-(name).(ext) followed by a single
newline, all concatenated; no separator between files, and the result
ends with a newline. -/
def draftExtContent (fs : String → String) (langName : String) : List String → String
  | [] => ""
  | ext :: rest =>
      fs ("d-" ++ langName ++ "." ++ ext) ++ "\n" ++ draftExtContent fs langName rest

/-- Per-variant guidance of the draft registry instantiation; only Python
uses the multi-extension content rule. -/
def draft_get_guidance (fs : String → String) : DraftGuide → String
  | .Go => "Go guidance placeholder"
  | .Python => draftExtContent fs "python" ["md", "py"]
  | .Rust => "Rust guidance placeholder"
  | .C => "C-based languages guidance placeholder"
  | .Web => "Web technologies guidance placeholder"
  | .Kotlin => "Kotlin guidance placeholder"
  | .Container => "Container technologies guidance placeholder"
  | .SystemTool => "System tools guidance placeholder"

/-- The draft get_guidance tool: resolved guidance, or the draft's own
fallback sentence. -/
def draftGuidanceTool (fs : String → String) (language : String) : String :=
  match draft_from_string language with
  | some g => draft_get_guidance fs g
  | none =>
      "No specific guidance available for language: " ++ language ++
        ". Using general development philosophy."

/-- One iteration of the draft get_multiple_guidances loop: header line,
guidance, then the separator. -/
def gmgStep (fs : String → String) (result language : String) : String :=
  result ++ ("### " ++ language ++ " Guidance:\n") ++ draftGuidanceTool fs language ++ sep

/-- The draft get_multiple_guidances tool: starts from the empty string
(no base document) and appends one gmgStep per language. -/
def get_multiple_guidances (fs : String → String) (languages : List String) : String :=
  languages.foldl (gmgStep fs) ""

/-- Spec-side characterization of get_multiple_guidances: every section,
the last included, carries its header line and a trailing separator. -/
def gmgSections (fs : String → String) : List String → String
  | [] => ""
  | l :: rest =>
      "### " ++ l ++ " Guidance:\n" ++ draftGuidanceTool fs l ++ sep ++ gmgSections fs rest

theorem gmg_foldl (fs : String → String) (languages : List String) (acc : String) :
    languages.foldl (gmgStep fs) acc = acc ++ gmgSections fs languages := by
  induction languages generalizing acc with
  | nil => simp [gmgSections]
  | cons l rest ih =>
      rw [List.foldl_cons, ih, gmgStep, gmgSections]
      simp [String.append_assoc]

/-- C2: for every category of the canonical scout registry the resolver
maps the lowercased canonical name back to the category; the draft
resolver of examples/directives.rs, however, compares the lowercased
input against the unlowercased variant name, so every canonical-name
lookup there (for example "systemtool", "python", "go") returns none. -/
theorem c2_canonical_name_resolution :
    (∀ cat, cat ∈ scoutRegistry →
        from_string scoutRegistry (toLowercase cat.name) = some cat) ∧
      draft_from_string "systemtool" = none ∧
      draft_from_string "python" = none ∧
      draft_from_string "go" = none := by
  refine ⟨by decide, by decide, by decide, by decide⟩

/-- C9: the draft get_multiple_guidances returns the empty string for an
empty language list (no base document, no separator), and for any list
each section is preceded by its header line and followed by a trailing
separator, the last section included. -/
theorem c9_draft_multi_guidances (fs : String → String) :
    get_multiple_guidances fs [] = "" ∧
      ∀ languages, get_multiple_guidances fs languages = gmgSections fs languages := by
  refine ⟨rfl, ?_⟩
  intro languages
  rw [get_multiple_guidances, gmg_foldl]
  simp

/-- C10: the draft multi-extension content rule and the canonical files!
rule disagree on the same ordered file list. The draft rule appends a
newline after each file's contents and no delimiter between files, so the
draft Python guidance is the d-python.md contents, a newline, the
d-python.py contents, and a newline; the canonical files! rule joins the
same two files with the separator, and the two results differ. -/
theorem c10_draft_vs_canonical_files :
    (∀ fs : String → String,
        draft_get_guidance fs .Python =
          fs "d-python.md" ++ "\n" ++ fs "d-python.py" ++ "\n") ∧
      draft_get_guidance (fun _ => "X") .Python ≠
        materialize (fun _ => "X") (.multiFile ["d-python.md", "d-python.py"]) := by
  constructor
  · intro fs
    show draftExtContent fs "python" ["md", "py"] = _
    simp only [draftExtContent, String.append_empty, String.append_assoc]
    rfl
  · decide

/-- Spec-side join: the contents with exactly one separator between each
consecutive pair, and no leading or trailing separator. -/
def sepJoin : List String → String
  | [] => ""
  | [c] => c
  | c :: c2 :: rest => c ++ sep ++ sepJoin (c2 :: rest)

/-- Tail form of the spec-side join: a separator before every element. -/
def sepTail : List String → String
  | [] => ""
  | c :: rest => sep ++ c ++ sepTail rest

theorem sepJoin_cons (c : String) (rest : List String) :
    sepJoin (c :: rest) = c ++ sepTail rest := by
  induction rest generalizing c with
  | nil => simp [sepJoin, sepTail]
  | cons d rs ih =>
      show c ++ sep ++ sepJoin (d :: rs) = _
      rw [ih d, sepTail]
      simp [String.append_assoc]

theorem append_ne_empty_left {s : String} (t : String) (h : s ≠ "") : s ++ t ≠ "" := by
  intro he
  apply h
  have hd : s.data ++ t.data = [] := by
    rw [← String.data_append, he]
  exact String.ext (by simp [(List.append_eq_nil.mp hd).1])

theorem filesCombine_go (contents : List String) (combined : String) (h : combined ≠ "") :
    List.foldl filesStep combined contents = combined ++ sepTail contents := by
  induction contents generalizing combined with
  | nil => simp [sepTail]
  | cons c rest ih =>
      rw [List.foldl_cons]
      have hstep : filesStep combined c = combined ++ sep ++ c := by
        simp [filesStep, h]
      rw [hstep, ih _ (append_ne_empty_left c (append_ne_empty_left sep h)), sepTail]
      simp [String.append_assoc]

/-- C5 counterexample: when the first file's contents are empty the
files! rule emits no separator before the second file at all, so the
result is not the contents joined with one separator between each
consecutive pair. -/
theorem c5_multifile_counterexample :
    materialize (fun p => if p == "b" then "B" else "") (.multiFile ["a", "b"]) ≠
      sepJoin (["a", "b"].map fun p => if p == "b" then "B" else "") := by
  decide

/-- C5 (amended): for a MultiFile source with a non-empty file list whose
first file's contents are non-empty, materialization is the files'
contents in declared order with exactly one separator between each
consecutive pair and no leading or trailing separator. -/
theorem c5_multifile_join (fs : String → String) (p : String) (paths : List String)
    (h : fs p ≠ "") :
    materialize fs (.multiFile (p :: paths)) = sepJoin ((p :: paths).map fs) := by
  show filesCombine (fs p :: paths.map fs) = _
  rw [List.map_cons, sepJoin_cons, filesCombine, List.foldl_cons]
  have hfirst : filesStep "" (fs p) = fs p := by
    simp [filesStep]
  rw [hfirst, filesCombine_go _ _ h]

theorem c5_multifile_join_witness :
    materialize (fun _ => "A") (.multiFile ["a", "b"]) =
      sepJoin (["a", "b"].map fun _ => "A") :=
  c5_multifile_join (fun _ => "A") "a" ["b"] (by decide)

end Azathoth
